import Mathlib

/-!
Verification of the state-reconciliation and optimistic-persistence core of
the echo-chamber social-feed interface (`src/App.tsx`).

The dynamic (duck-typed) documents that flow through the parser, the schema
normalizer, the variable-store reader and the writer are embedded as a
JSON-like value type `Val`.  External collaborators that the code only calls
through a boundary (the `yaml` library's `parse`, `JSON.parse`, the macro
substitution function, the two variable backends) are passed in as explicit
function parameters returning `Except Unit _`, where `Except.error ()` models
a raised exception at that boundary.  JavaScript `undefined` is modelled by
`Option.none` at the points where the code distinguishes it (property access,
`??`), and JavaScript `null` by `Val.vnull`.
-/

namespace EchoChamber

/-- Dynamic JSON-like document value.  Objects keep their fields as an ordered
association list, mirroring JavaScript property-insertion order. -/
inductive Val where
  | vnull : Val
  | vbool : Bool → Val
  | vnum : Int → Val
  | vstr : String → Val
  | varr : List Val → Val
  | vobj : List (String × Val) → Val

/-- JavaScript strict test against `null` (`v === null` / the nullish half of
`??` once `undefined` is ruled out). -/
def Val.isNull : Val → Bool
  | Val.vnull => true
  | _ => false

/-- Property lookup `v[k]`: `none` models JavaScript `undefined` (missing key
or non-object receiver). -/
def objGet (v : Val) (k : String) : Option Val :=
  match v with
  | Val.vobj fields => (fields.find? (fun p => p.1 = k)).map (fun p => p.2)
  | _ => none

/-- Property lookup through a possibly-`undefined` receiver, as lodash `_.get`
behaves (`undefined` receiver yields `undefined`). -/
def objGetU (o : Option Val) (k : String) : Option Val :=
  match o with
  | none => none
  | some v => objGet v k

/-- Replace the field `k` in place when present, else append it: the semantics
of the object spread `{ ...record, k: x }` and of lodash `_.set` on a key that
is one path segment long. -/
def setField (k : String) (x : Val) : List (String × Val) → List (String × Val)
  | [] => [(k, x)]
  | (k0, v0) :: rest => if k0 = k then (k0, x) :: rest else (k0, v0) :: setField k x rest

/-- Object update `{ ...v, k: x }`.  lodash `_.set` on a non-object leaves the
value unchanged, which is what the writer relies on. -/
def objSet (v : Val) (k : String) (x : Val) : Val :=
  match v with
  | Val.vobj fields => Val.vobj (setField k x fields)
  | other => other

/-- JavaScript falsiness of a value (`!v`). -/
def jsFalsy (v : Val) : Bool :=
  match v with
  | Val.vnull => true
  | Val.vbool b => !b
  | Val.vnum n => n = 0
  | Val.vstr s => s = ""
  | _ => false

/-- JavaScript falsiness of a possibly-`undefined` value. -/
def jsFalsyU (o : Option Val) : Bool :=
  match o with
  | none => true
  | some v => jsFalsy v

/-- JavaScript nullishness (`v ?? _` fires): `undefined` or `null`. -/
def nullishU (o : Option Val) : Bool :=
  match o with
  | none => true
  | some v => v.isNull

/-- JavaScript `a ?? b` over possibly-`undefined` values. -/
def orElseJs (a b : Option Val) : Option Val :=
  if nullishU a then b else a

/-- JavaScript `v ?? {}` applied to a backend read result. -/
def nullishToEmptyObj (v : Val) : Val :=
  if v.isNull then Val.vobj [] else v

/-- The ECMAScript `\s` character class used by the trailing-comma regex. -/
def isJsWhitespace (ch : Char) : Bool :=
  ch = ' ' || ch = '\t' || ch = '\n' || ch = '\x0b' || ch = '\x0c' || ch = '\r' ||
  ch.val = 0xa0 || ch.val = 0x1680 || (0x2000 ≤ ch.val && ch.val ≤ 0x200a) ||
  ch.val = 0x2028 || ch.val = 0x2029 || ch.val = 0x202f || ch.val = 0x205f ||
  ch.val = 0x3000 || ch.val = 0xfeff

/-- One left-to-right pass of `source.replace(/,\s*(\x7d|\])/g, '$1')`: each
comma followed by whitespace and a closing brace or bracket is replaced by
that closer, scanning resumes after the match, and a comma not completing the
pattern is kept verbatim. -/
def stripTrailingCommaChars : List Char → List Char
  | [] => []
  | ch :: rest =>
    if ch = ',' then
      match h : rest.dropWhile isJsWhitespace with
      | close :: tail =>
        if close = '}' || close = ']' then close :: stripTrailingCommaChars tail
        else ch :: stripTrailingCommaChars rest
      | [] => ch :: stripTrailingCommaChars rest
    else ch :: stripTrailingCommaChars rest
termination_by l => l.length
decreasing_by
  · have h1 : (rest.dropWhile isJsWhitespace).Sublist rest := List.dropWhile_sublist _
    have h2 := h1.length_le
    rw [h] at h2
    simp at h2 ⊢
    omega
  · simp
  · simp
  · simp

/-- JavaScript `String.prototype.trim`: strip the `\s` class from both ends.
Implemented over the character list so concrete values evaluate. -/
def jsTrim (s : String) : String :=
  String.mk (((s.data.dropWhile isJsWhitespace).reverse.dropWhile isJsWhitespace).reverse)

/-- String form of the relaxed-JSON pre-pass `source.replace(/,\s*(\x7d|\])/g, '$1')`. -/
def stripTrailingCommas (s : String) : String :=
  String.mk (stripTrailingCommaChars s.data)

/-- External parser boundary: the `yaml` library's `parse` and `JSON.parse`.
`Except.error ()` models the parser raising; `Val.vnull` models it returning
`null` (for example `parse('')`). -/
structure Parsers where
  yaml : String → Except Unit Val
  json : String → Except Unit Val

/-- JavaScript `result ?? {}` applied to a successful parse result. -/
def jsOrEmptyDoc (v : Val) : Val :=
  if v.isNull then Val.vobj [] else v

/-- Embedding of `parseYamlSource` (src/App.tsx lines 262-280): try the YAML
grammar, then strict JSON, then strict JSON over the trailing-comma-stripped
text; each success is defaulted through `?? {}`; total failure yields the
empty document. -/
def parseYamlSource (P : Parsers) (source : String) : Val :=
  match P.yaml source with
  | Except.ok v => jsOrEmptyDoc v
  | Except.error _ =>
    match P.json source with
    | Except.ok v => jsOrEmptyDoc v
    | Except.error _ =>
      match P.json (stripTrailingCommas source) with
      | Except.ok v => jsOrEmptyDoc v
      | Except.error _ => Val.vobj []

/-- Embedding of `resolveMacroString`: absent substitution function or a raise
inside it keeps the original string. -/
def resolveMacroString (subst : Option (String → Except Unit String)) (value : String) : String :=
  match subst with
  | none => value
  | some f =>
    match f value with
    | Except.ok s => s
    | Except.error _ => value

mutual
/-- Embedding of `resolveMacrosDeep`: rewrite every string leaf through the
substitution boundary, rebuilding arrays and objects in order. -/
def resolveMacrosDeep (subst : Option (String → Except Unit String)) : Val → Val
  | Val.vstr s => Val.vstr (resolveMacroString subst s)
  | Val.varr items => Val.varr (resolveValList subst items)
  | Val.vobj fields => Val.vobj (resolveFieldList subst fields)
  | v => v

/-- Elementwise macro resolution over an array's items. -/
def resolveValList (subst : Option (String → Except Unit String)) : List Val → List Val
  | [] => []
  | v :: rest => resolveMacrosDeep subst v :: resolveValList subst rest

/-- Entrywise macro resolution over an object's fields. -/
def resolveFieldList (subst : Option (String → Except Unit String)) :
    List (String × Val) → List (String × Val)
  | [] => []
  | (k, v) :: rest => (k, resolveMacrosDeep subst v) :: resolveFieldList subst rest
end

/-- Embedding of the per-post body of `normalizeEchoChamberFeed` (src/App.tsx
lines 305-314): when `people_comments` is falsy and `People_comments` is
truthy, spread the post and overwrite `people_comments` with the alternate
field's value.  Property access on `null` raises. -/
def normalizePostVal : Val → Except Unit Val
  | Val.vnull => Except.error ()
  | post =>
    if jsFalsyU (objGet post "people_comments") && !jsFalsyU (objGet post "People_comments") then
      Except.ok (objSet post "people_comments" ((objGet post "People_comments").getD Val.vnull))
    else
      Except.ok post

/-- Embedding of `normalizeEchoChamberFeed` (src/App.tsx lines 303-319): a feed
without a truthy `posts` field is returned unchanged; otherwise every post is
rewritten and the feed's `posts` field replaced.  Calling `.map` on a truthy
non-array `posts`, or the feed being `null`, raises. -/
def normalizeEchoChamberFeed : Val → Except Unit Val
  | Val.vnull => Except.error ()
  | feed =>
    match objGet feed "posts" with
    | none => Except.ok feed
    | some postsVal =>
      if jsFalsy postsVal then Except.ok feed
      else
        match postsVal with
        | Val.varr posts => do
          let normalized ← posts.mapM normalizePostVal
          Except.ok (objSet feed "posts" (Val.varr normalized))
        | _ => Except.error ()

/-- Embedding of the type guard `isRootData` (src/App.tsx lines 321-327): a
truthy object exposing any of the three canonical top-level keys.  Arrays and
scalars carry none of those string keys. -/
def isRootData (v : Val) : Bool :=
  !(objGet v "echo_chamber_feed").isNone || !(objGet v "user_profile_page").isNone ||
    !(objGet v "direct_message_thread").isNone

/-- Embedding of the type guard `isEchoChamberFeed` (src/App.tsx lines
329-333): a truthy object exposing `viewer_profile` or `posts`. -/
def isEchoChamberFeed (v : Val) : Bool :=
  !(objGet v "viewer_profile").isNone || !(objGet v "posts").isNone

/-- JavaScript `x ?? null` collapsing of a property lookup into the
`T | null` return convention (both `undefined` and `null` become `none`). -/
def lookupOrNull (o : Option Val) : Option Val :=
  if nullishU o then none else o

/-- Embedding of `coerceEchoChamberFeed` (src/App.tsx lines 335-347): falsy
input is rejected; a string is parsed and classified; an object is accepted
when feed-shaped. -/
def coerceEchoChamberFeed (P : Parsers) (v : Val) : Option Val :=
  if jsFalsy v then none
  else
    match v with
    | Val.vstr s =>
      let parsed := parseYamlSource P s
      if isRootData parsed then lookupOrNull (objGet parsed "echo_chamber_feed")
      else if isEchoChamberFeed parsed then some parsed
      else none
    | _ => if isEchoChamberFeed v then some v else none

/-- Lift of `coerceEchoChamberFeed` to a possibly-`undefined` argument
(`coerceEchoChamberFeed(undefined)` hits the falsy guard). -/
def coerceEchoChamberFeedU (P : Parsers) (o : Option Val) : Option Val :=
  match o with
  | none => none
  | some v => coerceEchoChamberFeed P v

/-- Keys whose value is `undefined` are identified with absent keys when the
coercion builds its result object literal. -/
def objOfOpt (l : List (String × Option Val)) : Val :=
  Val.vobj (l.filterMap (fun p => p.2.map (fun v => (p.1, v))))

/-- The RootData object literal built by `coerceRootData` for an input that is
already root-shaped (src/App.tsx lines 357-364). -/
def rootFromRecord (P : Parsers) (v : Val) : Val :=
  let feed := coerceEchoChamberFeedU P (objGet v "echo_chamber_feed")
  objOfOpt
    [("echo_chamber_feed", orElseJs feed (objGet v "echo_chamber_feed")),
     ("user_profile_page", objGet v "user_profile_page"),
     ("direct_message_thread", objGet v "direct_message_thread")]

/-- Embedding of `coerceRootData` (src/App.tsx lines 349-374).  The fuel
argument bounds the recursion through parsed strings and the `echo_chamber`
wrapper, modelling the JavaScript call stack; exhausted fuel stands for the
stack overflowing, which every call site of the reader catches. -/
def coerceRootData (P : Parsers) : Nat → Val → Option Val
  | 0, _ => none
  | Nat.succ fuel, v =>
    if jsFalsy v then none
    else
      match v with
      | Val.vstr s => coerceRootData P fuel (parseYamlSource P s)
      | Val.vobj _ | Val.varr _ =>
        if isRootData v then some (rootFromRecord P v)
        else
          let nested :=
            match objGet v "echo_chamber" with
            | some ec => if jsFalsy ec then none else coerceRootData P fuel ec
            | none => none
          match nested with
          | some r => some r
          | none => if isEchoChamberFeed v then some (Val.vobj [("echo_chamber_feed", v)]) else none
      | _ => none

/-- Lift of `coerceRootData` to a possibly-`undefined` argument. -/
def coerceRootDataU (P : Parsers) (fuel : Nat) (o : Option Val) : Option Val :=
  match o with
  | none => none
  | some v => coerceRootData P fuel v

/-- Scope identifiers of the external variable store. -/
inductive Scope where
  | message : Scope
  | chat : Scope
  | character : Scope
  | globalScope : Scope

/-- Environment the reader runs in: `mvu` is the structured backend's
message-scoped read (absent when `Mvu` is undefined, `Except.error` when the
read raises); `hasMessageId` is whether `getCurrentMessageId` is a function;
`getVars` is the generic backend's per-scope read. -/
structure ReaderEnv where
  mvu : Option (Except Unit Val)
  hasMessageId : Bool
  getVars : Option (Scope → Except Unit Val)

/-- The structured-backend probe of the reader (src/App.tsx lines 378-383):
look for `stat_data.echo_chamber`, falling back to `stat_data` itself, and
coerce the result. -/
def mvuProbe (P : Parsers) (fuel : Nat) (doc : Val) : Option Val :=
  let statData := objGet doc "stat_data"
  coerceRootDataU P fuel (orElseJs (objGetU statData "echo_chamber") statData)

/-- The five probes the reader runs against one generic-backend scope document
(src/App.tsx lines 396-407), first non-null coercion winning. -/
def probeScope (P : Parsers) (fuel : Nat) (vars : Val) : Option Val :=
  let statData := objGet vars "stat_data"
  match coerceRootDataU P fuel (orElseJs (objGetU statData "echo_chamber") statData) with
  | some r => some r
  | none =>
    match coerceEchoChamberFeedU P (objGetU statData "echo_chamber_feed") with
    | some f => some (Val.vobj [("echo_chamber_feed", f)])
    | none =>
      match coerceRootData P fuel vars with
      | some r => some r
      | none =>
        match coerceRootDataU P fuel (objGet vars "echo_chamber") with
        | some r => some r
        | none =>
          match coerceEchoChamberFeedU P (objGet vars "echo_chamber_feed") with
          | some f => some (Val.vobj [("echo_chamber_feed", f)])
          | none => none

/-- The generic-backend scan of the reader (src/App.tsx lines 394-411): walk
the scopes in priority order; a scope whose read raises is caught, logged and
skipped; the first scope with a non-null probe wins. -/
def genericScan (P : Parsers) (fuel : Nat) (gv : Scope → Except Unit Val) :
    List Scope → Option Val
  | [] => none
  | s :: rest =>
    match gv s with
    | Except.error _ => genericScan P fuel gv rest
    | Except.ok vars =>
      match probeScope P fuel vars with
      | some r => some r
      | none => genericScan P fuel gv rest

/-- The scope priority list the reader builds (src/App.tsx lines 389-393):
message scope only when a current-message id is resolvable, then chat,
character and global. -/
def readerScopes (hasMessageId : Bool) : List Scope :=
  (if hasMessageId then [Scope.message] else []) ++
    [Scope.chat, Scope.character, Scope.globalScope]

/-- Embedding of `readEchoChamberVariables` (src/App.tsx lines 376-415): the
structured backend is probed first (a raise is caught and treated as a miss),
then each generic scope in order; no match anywhere yields `none`. -/
def readEchoChamberVariables (P : Parsers) (fuel : Nat) (env : ReaderEnv) : Option Val :=
  let fromMvu : Option Val :=
    match env.mvu, env.hasMessageId with
    | some (Except.ok doc), true => mvuProbe P fuel doc
    | _, _ => none
  match fromMvu with
  | some r => some r
  | none =>
    match env.getVars with
    | none => none
    | some gv => genericScan P fuel gv (readerScopes env.hasMessageId)

/-- Embedding of `refreshData` (src/App.tsx lines 473-481): a null (or falsy)
reader result leaves the in-memory model untouched; otherwise macros are
resolved, a truthy `echo_chamber_feed` is normalized in place, and the model
is replaced wholesale.  The `Except` propagates a raise out of the
normalization step. -/
def refreshData (P : Parsers) (fuel : Nat) (subst : Option (String → Except Unit String))
    (env : ReaderEnv) (current : Val) : Except Unit Val :=
  match readEchoChamberVariables P fuel env with
  | none => Except.ok current
  | some variableData =>
    if jsFalsy variableData then Except.ok current
    else
      let next := resolveMacrosDeep subst variableData
      match objGet next "echo_chamber_feed" with
      | some feedVal =>
        if jsFalsy feedVal then Except.ok next
        else do
          let nf ← normalizeEchoChamberFeed feedVal
          Except.ok (objSet next "echo_chamber_feed" nf)
      | none => Except.ok next

/-- Fate of one backend write attempt inside a single `updateStatData` call. -/
inductive WriteAttempt where
  | noAttempt : WriteAttempt
  | failed : Val → WriteAttempt
  | succeeded : Val → WriteAttempt

/-- Observable outcome of one `updateStatData` call: what each backend's
replace-whole-document call was handed (if reached) and whether the
`refresh` callback ran. -/
structure WriterOutcome where
  mvu : WriteAttempt
  generic : WriteAttempt
  refreshed : Bool

/-- The structured backend as the writer sees it: the message-scoped read and
the fate of its replace-whole-document call. -/
structure MvuBackend where
  getMvuData : Except Unit Val
  replaceMvuData : Except Unit Unit

/-- The generic backend as the writer sees it. -/
structure GenericBackend where
  getVariables : Except Unit Val
  replaceVariables : Except Unit Unit

/-- Environment a single `updateStatData` call runs in.  The target scope
option is always message-scoped (with a sentinel id when none is resolvable)
and is abstracted into the backends' read results; the best-effort
initialization wait has no observable effect here since its failure is only
logged. -/
structure WriterEnv where
  mvu : Option MvuBackend
  generic : Option GenericBackend

/-- Embedding of the writer's `updateWithVars` closure (src/App.tsx lines
426-432): deep-clone the read document, pull out `stat_data` (defaulting to an
empty mapping), apply the mutator, and re-attach it.  Cloning is the identity
in this pure model. -/
def updateWithVars (apply : Val → Val) (vars : Val) : Val :=
  let next := nullishToEmptyObj vars
  let statData :=
    match objGet next "stat_data" with
    | some sd => if sd.isNull then Val.vobj [] else sd
    | none => Val.vobj []
  objSet next "stat_data" (apply statData)

/-- The generic-backend block of `updateStatData` (src/App.tsx lines 454-463):
read, mutate, replace; a raise anywhere is caught and only logged, and
`refresh` runs only after the replace succeeded. -/
def genericBlock (apply : Val → Val) (generic : Option GenericBackend) : WriterOutcome :=
  match generic with
  | none => { mvu := WriteAttempt.noAttempt, generic := WriteAttempt.noAttempt, refreshed := false }
  | some g =>
    match g.getVariables with
    | Except.error _ =>
      { mvu := WriteAttempt.noAttempt, generic := WriteAttempt.noAttempt, refreshed := false }
    | Except.ok vars =>
      let next := updateWithVars apply (nullishToEmptyObj vars)
      match g.replaceVariables with
      | Except.error _ =>
        { mvu := WriteAttempt.noAttempt, generic := WriteAttempt.failed next, refreshed := false }
      | Except.ok _ =>
        { mvu := WriteAttempt.noAttempt, generic := WriteAttempt.succeeded next, refreshed := true }

/-- Embedding of `updateStatData` (src/App.tsx lines 417-464): the structured
backend is tried first and returns early on success; a raise in its read or
replace is caught and only logged, after which control falls through to the
generic-backend block. -/
def updateStatData (apply : Val → Val) (env : WriterEnv) : WriterOutcome :=
  match env.mvu with
  | none => genericBlock apply env.generic
  | some m =>
    match m.getMvuData with
    | Except.error _ => genericBlock apply env.generic
    | Except.ok vars =>
      let next := updateWithVars apply (nullishToEmptyObj vars)
      match m.replaceMvuData with
      | Except.error _ => { genericBlock apply env.generic with mvu := WriteAttempt.failed next }
      | Except.ok _ =>
        { mvu := WriteAttempt.succeeded next, generic := WriteAttempt.noAttempt, refreshed := true }

/-- Direct-message entry, as stored in threads and in the conversation cache. -/
structure DMMessage where
  sender_handle : String
  content : String
  is_read : Option Bool
  timestamp : Option String
deriving DecidableEq

/-- Conversation-cache record (`NpcChatRecord` in src/App.tsx lines 142-146). -/
structure NpcChatRecord where
  key : String
  updated_at : Int
  messages : List DMMessage
deriving DecidableEq

/-- Loosely-typed message object as it appears in an import file, restricted to
fields of the expected primitive types; an absent field is `none`.  The
`String(x ?? '')` coercions in the source are identities on this fragment. -/
structure RawDMMessage where
  sender_handle : Option String
  content : Option String
  is_read : Option Bool
  timestamp : Option String
deriving DecidableEq

/-- Loosely-typed conversation record as it appears in an import file. -/
structure RawNpcChatRecord where
  key : Option String
  npc_key : Option String
  updated_at : Option Int
  messages : Option (List RawDMMessage)
deriving DecidableEq

/-- Embedding of `normalizeNpcChatRecord` (src/App.tsx lines 235-260): `none`
input models a null or non-object value; the key falls back from `key` to
`npc_key` and is trimmed, an empty key rejects the whole record; each message
lacking a sender or content is dropped individually; `updated_at` defaults to
the current time `now`. -/
def normalizeNpcChatRecord (now : Int) (input : Option RawNpcChatRecord) :
    Option NpcChatRecord :=
  match input with
  | none => none
  | some record =>
    let key := jsTrim (record.key.getD (record.npc_key.getD ""))
    if key = "" then none
    else
      let rawMessages := record.messages.getD []
      let messages := rawMessages.filterMap (fun item =>
        let sender := item.sender_handle.getD ""
        let content := item.content.getD ""
        if sender = "" || content = "" then none
        else some { sender_handle := sender, content := content,
                    is_read := item.is_read, timestamp := item.timestamp })
      some { key := key, updated_at := record.updated_at.getD now, messages := messages }

/-- Embedding of the conversation-open merge effect (src/App.tsx lines
615-634): a missing record or one without messages leaves the current list; a
non-empty cached record is adopted only when strictly longer than the
backend-supplied thread (when present; otherwise the current list). -/
def mergeNpcChatOnLoad (record : Option NpcChatRecord)
    (threadMessages : Option (List DMMessage)) (current : List DMMessage) : List DMMessage :=
  match record with
  | none => current
  | some r =>
    if r.messages.length = 0 then current
    else
      let base := threadMessages.getD current
      if base.length < r.messages.length then r.messages else base

/-- Viewer identity shown at the top of the feed. -/
structure FeedViewerProfile where
  name : String
  avatar_char : Option String
  user_handle : Option String
  posts_count : Option Int
  followers_count : Option Int
  following_count : Option Int
deriving DecidableEq

/-- Feed post author identity. -/
structure FeedPostUser where
  name : String
  handle : String
  avatar_icon : Option String
  avatar_bg : Option String
deriving DecidableEq

/-- Feed post statistics. -/
structure FeedPostStats where
  comments : Option Int
  likes : Option Int
  is_liked_by_viewer : Option Bool
deriving DecidableEq

/-- Reply under a feed comment. -/
structure FeedPostReply where
  «from» : String
  «to» : Option String
  avatar : Option String
  text : String
deriving DecidableEq

/-- Comment under a feed post. -/
structure FeedPostComment where
  author : String
  handle : Option String
  avatar : Option String
  text : String
  replies : Option (List FeedPostReply)
deriving DecidableEq

/-- Typed feed post, as the optimistic in-memory working copy holds it. -/
structure FeedPost where
  user : FeedPostUser
  body : String
  tags : Option (List String)
  image_caption : Option String
  stats : FeedPostStats
  people_comments : Option (List FeedPostComment)
deriving DecidableEq

/-- Profile post statistics. -/
structure ProfilePostStats where
  comments : Option Int
  likes : Option Int
  is_liked_by_viewer : Option Bool
deriving DecidableEq

/-- Comment on a profile post. -/
structure ProfilePostComment where
  comment_id : Option String
  user_name : String
  avatar : Option String
  text : String
deriving DecidableEq

/-- Typed profile post. -/
structure ProfilePost where
  id : String
  body : String
  image_caption : Option String
  stats : ProfilePostStats
  comments_data : Option (List ProfilePostComment)
deriving DecidableEq

/-- Indexed map starting at `i`, the shape of every
`prev.map((item, idx) => idx !== index ? item : f(item))` updater. -/
def mapIdxFrom (f : Nat → α → α) : Nat → List α → List α
  | _, [] => []
  | i, x :: xs => f i x :: mapIdxFrom f (i + 1) xs

/-- Embedding of `getInitialChar` (src/App.tsx lines 466-469). -/
def getInitialChar (value : Option String) (fallback : String) : String :=
  match value with
  | none => fallback
  | some s =>
    match (jsTrim s).data with
    | [] => fallback
    | c :: _ => String.mk [c]

/-- The per-post stats rewrite of `toggleFeedLike` (src/App.tsx lines
1015-1024): flip the viewer-like flag and move `likes` by one, clamping at
zero. -/
def toggleFeedLikePost (post : FeedPost) : FeedPost :=
  let isLiked := post.stats.is_liked_by_viewer.getD false
  let likes := post.stats.likes.getD 0
  { post with stats :=
    { post.stats with
      is_liked_by_viewer := some (!isLiked)
      likes := some (max 0 (if isLiked then likes - 1 else likes + 1)) } }

/-- Embedding of the optimistic updater of `toggleFeedLike` (src/App.tsx lines
1011-1026). -/
def toggleFeedLike (posts : List FeedPost) (index : Nat) : List FeedPost :=
  mapIdxFrom (fun idx post => if idx = index then toggleFeedLikePost post else post) 0 posts

/-- The per-post stats rewrite of `toggleUserLike` (src/App.tsx lines
1046-1056). -/
def toggleUserLikePost (post : ProfilePost) : ProfilePost :=
  let isLiked := post.stats.is_liked_by_viewer.getD false
  let likes := post.stats.likes.getD 0
  { post with stats :=
    { post.stats with
      is_liked_by_viewer := some (!isLiked)
      likes := some (max 0 (if isLiked then likes - 1 else likes + 1)) } }

/-- Embedding of the optimistic updater of `toggleUserLike` (src/App.tsx lines
1043-1058). -/
def toggleUserLike (posts : List ProfilePost) (index : Nat) : List ProfilePost :=
  mapIdxFrom (fun idx post => if idx = index then toggleUserLikePost post else post) 0 posts

/-- Embedding of the optimistic updater of `handleDeleteFeedComment`
(src/App.tsx lines 936-957): drop the comment at `commentIndex` (the
index-filter is `eraseIdx`) and decrement `stats.comments` by one plus the
removed comment's reply count, clamping at zero. -/
def handleDeleteFeedComment (posts : List FeedPost) (postIndex commentIndex : Nat) :
    List FeedPost :=
  match posts[postIndex]? with
  | none => posts
  | some post =>
    match (post.people_comments.getD [])[commentIndex]? with
    | none => posts
    | some targetComment =>
      let removedCount : Int := 1 + ((targetComment.replies.getD []).length : Int)
      mapIdxFrom (fun idx item =>
        if idx = postIndex then
          { item with
            people_comments := some ((item.people_comments.getD []).eraseIdx commentIndex)
            stats := { item.stats with
              comments := some (max 0 (item.stats.comments.getD 0 - removedCount)) } }
        else item) 0 posts

/-- Embedding of the optimistic updater of `handleDeleteFeedReply`
(src/App.tsx lines 974-997): drop one reply and decrement `stats.comments` by
one, clamping at zero. -/
def handleDeleteFeedReply (posts : List FeedPost) (postIndex commentIndex replyIndex : Nat) :
    List FeedPost :=
  match posts[postIndex]? with
  | none => posts
  | some post =>
    match (post.people_comments.getD [])[commentIndex]? with
    | none => posts
    | some comment =>
      match (comment.replies.getD [])[replyIndex]? with
      | none => posts
      | some _ =>
        mapIdxFrom (fun idx item =>
          if idx = postIndex then
            { item with
              people_comments := some (mapIdxFrom (fun idx2 c =>
                if idx2 = commentIndex then
                  { c with replies := some ((c.replies.getD []).eraseIdx replyIndex) }
                else c) 0 (item.people_comments.getD []))
              stats := { item.stats with
                comments := some (max 0 (item.stats.comments.getD 0 - 1)) } }
          else item) 0 posts

/-- Embedding of the optimistic updater of `handleFeedReplySend` (src/App.tsx
lines 866-912): an empty trimmed input, a missing post, or a missing target
comment is a no-op; otherwise either a new top-level comment or a reply under
the target comment is appended and `stats.comments` is incremented by one.
`target = none` is a reply to the post itself. -/
def handleFeedReplySend (viewer : FeedViewerProfile) (posts : List FeedPost)
    (postIndex : Nat) (rawContent : String) (target : Option Nat) : List FeedPost :=
  let content := jsTrim rawContent
  if content = "" then posts
  else
    match posts[postIndex]? with
    | none => posts
    | some post =>
      let peopleComments := post.people_comments.getD []
      let targetMissing := match target with
        | some t => (peopleComments[t]?).isNone
        | none => false
      if targetMissing then posts
      else
        let avatar := viewer.avatar_char.getD (getInitialChar (some viewer.name) "")
        let reply : FeedPostReply :=
          { «from» := viewer.name
            «to» := match target with
              | some t => (peopleComments[t]?).map (fun c => c.author)
              | none => some post.user.name
            avatar := some avatar
            text := content }
        let newComment : FeedPostComment :=
          { author := viewer.name
            handle := viewer.user_handle
            avatar := some avatar
            text := content
            replies := some [] }
        mapIdxFrom (fun idx item =>
          if idx = postIndex then
            let nextComments := match target with
              | some t => mapIdxFrom (fun cIdx c =>
                  if cIdx = t then { c with replies := some ((c.replies.getD []) ++ [reply]) }
                  else c) 0 (item.people_comments.getD [])
              | none => (item.people_comments.getD []) ++ [newComment]
            { item with
              people_comments := some nextComments
              stats := { item.stats with comments := some (item.stats.comments.getD 0 + 1) } }
          else item) 0 posts

/-- Indexed lookup through `mapIdxFrom`. -/
theorem mapIdxFrom_getElem? (f : Nat → α → α) (n : Nat) (l : List α) (i : Nat) :
    (mapIdxFrom f n l)[i]? = (l[i]?).map (f (n + i)) := by
  induction l generalizing n i with
  | nil => simp [mapIdxFrom]
  | cons x xs ih =>
    cases i with
    | zero => simp [mapIdxFrom]
    | succ j =>
      simp only [mapIdxFrom, List.getElem?_cons_succ]
      rw [ih]
      rw [show n + 1 + j = n + (j + 1) by omega]

/-- Every element produced by `mapIdxFrom` is the image of an input element. -/
theorem mapIdxFrom_mem {f : Nat → α → α} {n : Nat} {l : List α} {y : α}
    (h : y ∈ mapIdxFrom f n l) : ∃ i x, x ∈ l ∧ y = f i x := by
  induction l generalizing n with
  | nil => simp [mapIdxFrom] at h
  | cons a as ih =>
    simp only [mapIdxFrom, List.mem_cons] at h
    rcases h with h1 | h2
    · exact ⟨n, a, List.mem_cons_self a as, h1⟩
    · obtain ⟨i, x, hx, hy⟩ := ih h2
      exact ⟨i, x, List.mem_cons_of_mem a hx, hy⟩

/-- Looking up the key just written by `setField`. -/
theorem find?_setField_self (fields : List (String × Val)) (k : String) (x : Val) :
    ((setField k x fields).find? (fun p => p.1 = k)).map (fun p => p.2) = some x := by
  induction fields with
  | nil => simp [setField]
  | cons hd tl ih =>
    obtain ⟨k0, v0⟩ := hd
    by_cases hk : k0 = k
    · simp [setField, hk]
    · simp only [setField, if_neg hk]
      rw [List.find?_cons_of_neg]
      · exact ih
      · simpa using hk

/-- Looking up a different key after `setField`. -/
theorem find?_setField_other (fields : List (String × Val)) (k k' : String) (x : Val)
    (hne : k' ≠ k) :
    (setField k x fields).find? (fun p => p.1 = k') = fields.find? (fun p => p.1 = k') := by
  induction fields with
  | nil =>
    have h0 : ¬(k = k') := fun h => hne h.symm
    simp [setField, h0]
  | cons hd tl ih =>
    obtain ⟨k0, v0⟩ := hd
    by_cases hk : k0 = k
    · subst hk
      have hk0 : ¬(k0 = k') := fun h => hne h.symm
      simp [setField, List.find?_cons_of_neg, hk0]
    · simp only [setField, if_neg hk]
      by_cases hk0 : k0 = k'
      · simp [List.find?_cons_of_pos, hk0]
      · rw [List.find?_cons_of_neg, List.find?_cons_of_neg]
        · exact ih
        · simpa using hk0
        · simpa using hk0

/-- Reading back the key just written by `objSet` on an object. -/
theorem objGet_objSet_self (fields : List (String × Val)) (k : String) (x : Val) :
    objGet (objSet (Val.vobj fields) k x) k = some x := by
  simpa [objSet, objGet] using find?_setField_self fields k x

/-- Reading any other key after `objSet` on an object. -/
theorem objGet_objSet_other (fields : List (String × Val)) (k k' : String) (x : Val)
    (hne : k' ≠ k) :
    objGet (objSet (Val.vobj fields) k x) k' = objGet (Val.vobj fields) k' := by
  simp [objSet, objGet, find?_setField_other fields k k' x hne]

/-- Writing the same key-value pair twice is the same as writing it once. -/
theorem setField_setField_self (fields : List (String × Val)) (k : String) (x : Val) :
    setField k x (setField k x fields) = setField k x fields := by
  induction fields with
  | nil => simp [setField]
  | cons hd tl ih =>
    obtain ⟨k0, v0⟩ := hd
    by_cases hk : k0 = k
    · simp [setField, hk]
    · simp [setField, hk, ih]

/-- A successful `objGet` forces the receiver to be an object. -/
theorem objGet_some_vobj {v : Val} {k : String} {x : Val} (h : objGet v k = some x) :
    ∃ fields, v = Val.vobj fields := by
  cases v <;> simp [objGet] at h <;> exact ⟨_, rfl⟩

/-- An elementwise-idempotent `Except`-valued map is idempotent on a list that
mapped successfully. -/
theorem mapM_ok_of_idem {f : Val → Except Unit Val}
    (hf : ∀ a b, f a = Except.ok b → f b = Except.ok b) :
    ∀ (l l' : List Val), l.mapM f = Except.ok l' → l'.mapM f = Except.ok l' := by
  intro l
  induction l with
  | nil =>
    intro l' h
    simp only [List.mapM_nil] at h
    cases h
    rfl
  | cons a as ih =>
    intro l' h
    rw [List.mapM_cons] at h
    cases hfa : f a with
    | error e => rw [hfa] at h; simp [Bind.bind, Except.bind] at h
    | ok b =>
      rw [hfa] at h
      cases hmas : as.mapM f with
      | error e =>
        rw [hmas] at h
        simp [Bind.bind, Except.bind, Pure.pure, Except.pure] at h
      | ok bs =>
        rw [hmas] at h
        simp only [Bind.bind, Except.bind, Pure.pure, Except.pure, Except.ok.injEq] at h
        subst h
        rw [List.mapM_cons, hf a b hfa, ih bs hmas]
        simp [Bind.bind, Except.bind, Pure.pure, Except.pure]

/-- Unfolding of `normalizePostVal` on an object. -/
theorem normalizePostVal_vobj (fields : List (String × Val)) :
    normalizePostVal (Val.vobj fields) =
      if jsFalsyU (objGet (Val.vobj fields) "people_comments") &&
          !jsFalsyU (objGet (Val.vobj fields) "People_comments") then
        Except.ok (objSet (Val.vobj fields) "people_comments"
          ((objGet (Val.vobj fields) "People_comments").getD Val.vnull))
      else Except.ok (Val.vobj fields) := rfl

/-- Per-post normalization is idempotent: a post it has rewritten is left
alone on a second pass. -/
theorem normalizePostVal_idem (p p' : Val) (h : normalizePostVal p = Except.ok p') :
    normalizePostVal p' = Except.ok p' := by
  cases p with
  | vnull => simp [normalizePostVal] at h
  | vobj fields =>
    rw [normalizePostVal_vobj] at h
    by_cases hcond : (jsFalsyU (objGet (Val.vobj fields) "people_comments") &&
        !jsFalsyU (objGet (Val.vobj fields) "People_comments")) = true
    · rw [if_pos hcond] at h
      cases h
      cases hgetAlt : objGet (Val.vobj fields) "People_comments" with
      | none =>
        rw [hgetAlt] at hcond
        simp [jsFalsyU] at hcond
      | some cs =>
        have halt : jsFalsy cs = false := by
          rw [hgetAlt] at hcond
          simp only [jsFalsyU, Bool.and_eq_true, Bool.not_eq_true'] at hcond
          exact hcond.2
        simp only [Option.getD_some]
        have hobjset : objSet (Val.vobj fields) "people_comments" cs =
            Val.vobj (setField "people_comments" cs fields) := rfl
        rw [hobjset, normalizePostVal_vobj, if_neg]
        intro hx
        rw [Bool.and_eq_true] at hx
        have hself : objGet (Val.vobj (setField "people_comments" cs fields)) "people_comments" =
            some cs := objGet_objSet_self fields "people_comments" cs
        rw [hself] at hx
        simp [jsFalsyU, halt] at hx
    · rw [if_neg hcond] at h
      cases h
      rw [normalizePostVal_vobj, if_neg hcond]
  | vbool b =>
    have h2 : p' = Val.vbool b := by
      have := h.symm
      simp only [normalizePostVal, objGet, jsFalsyU] at this
      simpa using this
    subst h2
    simp [normalizePostVal, objGet, jsFalsyU]
  | vnum n =>
    have h2 : p' = Val.vnum n := by
      have := h.symm
      simp only [normalizePostVal, objGet, jsFalsyU] at this
      simpa using this
    subst h2
    simp [normalizePostVal, objGet, jsFalsyU]
  | vstr s =>
    have h2 : p' = Val.vstr s := by
      have := h.symm
      simp only [normalizePostVal, objGet, jsFalsyU] at this
      simpa using this
    subst h2
    simp [normalizePostVal, objGet, jsFalsyU]
  | varr items =>
    have h2 : p' = Val.varr items := by
      have := h.symm
      simp only [normalizePostVal, objGet, jsFalsyU] at this
      simpa using this
    subst h2
    simp [normalizePostVal, objGet, jsFalsyU]

/-- Does the trailing-comma regex match at the head of this suffix? -/
def trailingCommaAt : List Char → Bool
  | [] => false
  | ch :: rest =>
    if ch = ',' then
      match rest.dropWhile isJsWhitespace with
      | close :: _ => close = '}' || close = ']'
      | [] => false
    else false

/-- The trailing-comma regex matches nowhere in this text. -/
def noTrailingComma : List Char → Bool
  | [] => true
  | ch :: rest => !trailingCommaAt (ch :: rest) && noTrailingComma rest

/-- Dropping a prefix that is entirely accepted by the predicate. -/
theorem dropWhile_append_of_all {p : α → Bool} {l1 l2 : List α}
    (h : ∀ a ∈ l1, p a = true) : (l1 ++ l2).dropWhile p = l2.dropWhile p := by
  induction l1 with
  | nil => simp
  | cons a as ih =>
    have ha : p a = true := h a (List.mem_cons_self a as)
    simp only [List.cons_append, List.dropWhile_cons, ha, if_true]
    exact ih (fun x hx => h x (List.mem_cons_of_mem a hx))

/-- Dropping stops inside the first list when it is not entirely dropped. -/
theorem dropWhile_append_of_ne_nil {p : α → Bool} {l1 l2 : List α}
    (h : l1.dropWhile p ≠ []) : (l1 ++ l2).dropWhile p = l1.dropWhile p ++ l2 := by
  induction l1 with
  | nil => simp at h
  | cons a as ih =>
    by_cases ha : p a = true
    · simp only [List.dropWhile_cons, ha, if_true] at h
      simp only [List.cons_append, List.dropWhile_cons, ha, if_true]
      exact ih h
    · have ha' : p a = false := by simpa using ha
      simp [List.cons_append, List.dropWhile_cons, ha']

/-- The regex pass leaves the empty text alone. -/
theorem strip_nil : stripTrailingCommaChars [] = [] := by
  rw [stripTrailingCommaChars]

/-- A non-comma head is emitted verbatim. -/
theorem strip_cons_not_comma (ch : Char) (rest : List Char) (h : ¬ ch = ',') :
    stripTrailingCommaChars (ch :: rest) = ch :: stripTrailingCommaChars rest := by
  rw [stripTrailingCommaChars]
  simp [h]

/-- A comma whose whitespace run ends at a closer is replaced by that closer
and scanning resumes after it. -/
theorem strip_cons_comma_close (rest tail : List Char) (close : Char)
    (hd : rest.dropWhile isJsWhitespace = close :: tail)
    (hc : close = '}' ∨ close = ']') :
    stripTrailingCommaChars (',' :: rest) = close :: stripTrailingCommaChars tail := by
  rw [stripTrailingCommaChars]
  have h0 : ((',' : Char) = ',') := rfl
  rw [if_pos h0]
  split
  · next close2 tail2 heq =>
    rw [hd] at heq
    cases heq
    have hb : (decide (close = '}') || decide (close = ']')) = true := by
      rcases hc with h1 | h1
      · simp [h1]
      · simp [h1]
    rw [if_pos hb]
  · next heq =>
    rw [hd] at heq
    cases heq

/-- A comma whose whitespace run ends at a non-closer is kept verbatim. -/
theorem strip_cons_comma_notclose (rest tail : List Char) (close : Char)
    (hd : rest.dropWhile isJsWhitespace = close :: tail)
    (hc : ¬ (close = '}' ∨ close = ']')) :
    stripTrailingCommaChars (',' :: rest) = ',' :: stripTrailingCommaChars rest := by
  rw [stripTrailingCommaChars]
  have h0 : ((',' : Char) = ',') := rfl
  rw [if_pos h0]
  split
  · next close2 tail2 heq =>
    rw [hd] at heq
    cases heq
    have hb : ¬ ((decide (close = '}') || decide (close = ']')) = true) := by
      simpa using hc
    rw [if_neg hb]
  · next heq =>
    rw [hd] at heq

/-- A comma followed only by whitespace is kept verbatim. -/
theorem strip_cons_comma_nil (rest : List Char)
    (hd : rest.dropWhile isJsWhitespace = []) :
    stripTrailingCommaChars (',' :: rest) = ',' :: stripTrailingCommaChars rest := by
  rw [stripTrailingCommaChars]
  have h0 : ((',' : Char) = ',') := rfl
  rw [if_pos h0]
  split
  · next close2 tail2 heq =>
    rw [hd] at heq
    cases heq
  · next heq => rfl

/-- Text the regex does not match anywhere is returned verbatim. -/
theorem stripTrailingCommaChars_eq_self {l : List Char} (h : noTrailingComma l = true) :
    stripTrailingCommaChars l = l := by
  induction l with
  | nil => exact strip_nil
  | cons ch rest ih =>
    have hrest : noTrailingComma rest = true := by
      simp only [noTrailingComma, Bool.and_eq_true] at h
      exact h.2
    have hat : trailingCommaAt (ch :: rest) = false := by
      simp only [noTrailingComma, Bool.and_eq_true, Bool.not_eq_true'] at h
      exact h.1
    by_cases hch : ch = ','
    · subst hch
      cases hd : rest.dropWhile isJsWhitespace with
      | nil => rw [strip_cons_comma_nil rest hd, ih hrest]
      | cons close tl =>
        have h0 : ((',' : Char) = ',') := rfl
        have hb : trailingCommaAt (',' :: rest) = (close = '}' || close = ']') := by
          rw [trailingCommaAt, if_pos h0, hd]
        rw [hb] at hat
        simp only [Bool.or_eq_false_iff, decide_eq_false_iff_not] at hat
        have hclose : ¬ (close = '}' ∨ close = ']') := by
          intro hor
          rcases hor with h1 | h1
          · exact hat.1 h1
          · exact hat.2 h1
        rw [strip_cons_comma_notclose rest tl close hd hclose, ih hrest]
    · rw [strip_cons_not_comma ch rest hch, ih hrest]

/-- The regex pass rewrites the designated single occurrence and leaves the
pattern-free prefix verbatim. -/
theorem stripTrailingCommaChars_single (pre ws post : List Char) (close : Char)
    (hpre : noTrailingComma pre = true)
    (hws : ∀ ch ∈ ws, isJsWhitespace ch = true)
    (hclose : close = '}' ∨ close = ']') :
    stripTrailingCommaChars (pre ++ ',' :: (ws ++ close :: post)) =
      pre ++ close :: stripTrailingCommaChars post := by
  have hcloseWs : isJsWhitespace close = false := by
    rcases hclose with h | h
    · rw [h]
      decide
    · rw [h]
      decide
  induction pre with
  | nil =>
    simp only [List.nil_append]
    have hdrop : (ws ++ close :: post).dropWhile isJsWhitespace = close :: post := by
      rw [dropWhile_append_of_all hws, List.dropWhile_cons, hcloseWs]
      simp
    exact strip_cons_comma_close _ _ _ hdrop hclose
  | cons c pre' ih =>
    have hpre' : noTrailingComma pre' = true := by
      simp only [noTrailingComma, Bool.and_eq_true] at hpre
      exact hpre.2
    have hat : trailingCommaAt (c :: pre') = false := by
      simp only [noTrailingComma, Bool.and_eq_true, Bool.not_eq_true'] at hpre
      exact hpre.1
    simp only [List.cons_append]
    by_cases hc : c = ','
    · subst hc
      by_cases hall : ∀ a ∈ pre', isJsWhitespace a = true
      · have hcws : isJsWhitespace ',' = false := by decide
        have hdrop : (pre' ++ ',' :: (ws ++ close :: post)).dropWhile isJsWhitespace =
            ',' :: (ws ++ close :: post) := by
          rw [dropWhile_append_of_all hall, List.dropWhile_cons, hcws]
          simp
        have hnc : ¬ ((',' : Char) = '}' ∨ (',' : Char) = ']') := by decide
        rw [strip_cons_comma_notclose _ _ _ hdrop hnc, ih hpre']
      · have hne : pre'.dropWhile isJsWhitespace ≠ [] := by
          intro hnil
          exact hall (by simpa using List.dropWhile_eq_nil_iff.mp hnil)
        cases hd : pre'.dropWhile isJsWhitespace with
        | nil => exact absurd hd hne
        | cons d ds =>
          have hdrop : (pre' ++ ',' :: (ws ++ close :: post)).dropWhile isJsWhitespace =
              d :: (ds ++ ',' :: (ws ++ close :: post)) := by
            rw [dropWhile_append_of_ne_nil hne, hd]
            rfl
          have h0 : ((',' : Char) = ',') := rfl
          have hb : trailingCommaAt (',' :: pre') = (d = '}' || d = ']') := by
            rw [trailingCommaAt, if_pos h0, hd]
          rw [hb] at hat
          simp only [Bool.or_eq_false_iff, decide_eq_false_iff_not] at hat
          have hdclose : ¬ (d = '}' ∨ d = ']') := by
            intro hor
            rcases hor with h1 | h1
            · exact hat.1 h1
            · exact hat.2 h1
          rw [strip_cons_comma_notclose _ _ _ hdrop hdclose, ih hpre']
    · rw [strip_cons_not_comma _ _ hc, ih hpre']

/-- A scope whose generic-backend read raises is skipped by the scan. -/
theorem genericScan_error_skip (P : Parsers) (fuel : Nat) (gv : Scope → Except Unit Val)
    (s : Scope) (rest : List Scope) (h : gv s = Except.error ()) :
    genericScan P fuel gv (s :: rest) = genericScan P fuel gv rest := by
  rw [genericScan, h]

/-- A scan over scopes none of which yields a successful probe returns null. -/
theorem genericScan_none (P : Parsers) (fuel : Nat) (gv : Scope → Except Unit Val)
    (scopes : List Scope)
    (h : ∀ s vars, gv s = Except.ok vars → probeScope P fuel vars = none) :
    genericScan P fuel gv scopes = none := by
  induction scopes with
  | nil => rfl
  | cons s rest ih =>
    rw [genericScan]
    cases hgv : gv s with
    | error e => simpa using ih
    | ok vars =>
      simp only [h s vars hgv]
      exact ih

/-- C6: on opening a conversation, given a cached record with `m` messages and
a backend-supplied thread with `n` messages, the adopted current message list
is the longer of the two sequences and therefore has exactly `max(m, n)`
messages.  (`current` equals the thread messages here because the effect at
src/App.tsx line 611 has just installed them.) -/
theorem C6_merge_adopts_longer (r : NpcChatRecord) (thread : List DMMessage) :
    (mergeNpcChatOnLoad (some r) (some thread) thread).length =
      max r.messages.length thread.length ∧
    (mergeNpcChatOnLoad (some r) (some thread) thread = r.messages ∨
     mergeNpcChatOnLoad (some r) (some thread) thread = thread) := by
  simp only [mergeNpcChatOnLoad, Option.getD_some]
  by_cases h0 : r.messages.length = 0
  · rw [if_pos h0]
    constructor
    · omega
    · right
      rfl
  · rw [if_neg h0]
    by_cases hgt : thread.length < r.messages.length
    · rw [if_pos hgt]
      constructor
      · omega
      · left
        rfl
    · rw [if_neg hgt]
      constructor
      · omega
      · right
        rfl

/-- C7: `parseYamlSource` is total by construction (it returns a `Val` for
every input), tries the YAML grammar, then strict JSON, then relaxed JSON with
trailing commas stripped, in that order, and returns the empty document when
all three fail. -/
theorem C7_parse_chain (P : Parsers) (source : String) :
    (∀ v, P.yaml source = Except.ok v → parseYamlSource P source = jsOrEmptyDoc v) ∧
    (P.yaml source = Except.error () →
      ∀ v, P.json source = Except.ok v → parseYamlSource P source = jsOrEmptyDoc v) ∧
    (P.yaml source = Except.error () → P.json source = Except.error () →
      ∀ v, P.json (stripTrailingCommas source) = Except.ok v →
        parseYamlSource P source = jsOrEmptyDoc v) ∧
    (P.yaml source = Except.error () → P.json source = Except.error () →
      P.json (stripTrailingCommas source) = Except.error () →
      parseYamlSource P source = Val.vobj []) := by
  refine ⟨?_, ?_, ?_, ?_⟩
  · intro v h
    simp only [parseYamlSource, h]
  · intro h1 v h
    simp only [parseYamlSource, h1, h]
  · intro h1 h2 v h
    simp only [parseYamlSource, h1, h2, h]
  · intro h1 h2 h3
    simp only [parseYamlSource, h1, h2, h3]

/-- Parser boundary in which every grammar fails. -/
def parsersAllFail : Parsers :=
  { yaml := fun _ => Except.error (), json := fun _ => Except.error () }

/-- Parser boundary in which the YAML grammar succeeds with a number. -/
def parsersYamlNum : Parsers :=
  { yaml := fun _ => Except.ok (Val.vnum 7), json := fun _ => Except.error () }

/-- Witness for C7 at concrete parser boundaries. -/
theorem C7_witness :
    parseYamlSource parsersAllFail "x" = Val.vobj [] ∧
    parseYamlSource parsersYamlNum "x" = jsOrEmptyDoc (Val.vnum 7) := by
  constructor
  · exact (C7_parse_chain parsersAllFail "x").2.2.2 rfl rfl rfl
  · exact (C7_parse_chain parsersYamlNum "x").1 (Val.vnum 7) rfl

/-- C8: for text that is strict JSON except for a single trailing comma
(whitespace, then a closing brace or bracket, with the pattern occurring
nowhere else), the relaxed-JSON pre-pass produces exactly the comma-free
equivalent text, so the fallback parses it identically to that equivalent
under any JSON parser. -/
theorem C8_relaxed_json_trailing_comma (pre ws post : List Char) (close : Char)
    (hpre : noTrailingComma pre = true)
    (hws : ∀ ch ∈ ws, isJsWhitespace ch = true)
    (hclose : close = '}' ∨ close = ']')
    (hpost : noTrailingComma post = true) :
    stripTrailingCommas (String.mk (pre ++ ',' :: (ws ++ close :: post))) =
      String.mk (pre ++ close :: post) ∧
    ∀ P : Parsers,
      P.json (stripTrailingCommas (String.mk (pre ++ ',' :: (ws ++ close :: post)))) =
        P.json (String.mk (pre ++ close :: post)) := by
  have hs : stripTrailingCommas (String.mk (pre ++ ',' :: (ws ++ close :: post))) =
      String.mk (pre ++ close :: post) := by
    rw [stripTrailingCommas]
    rw [show (String.mk (pre ++ ',' :: (ws ++ close :: post))).data =
          pre ++ ',' :: (ws ++ close :: post) from rfl]
    rw [stripTrailingCommaChars_single pre ws post close hpre hws hclose]
    rw [stripTrailingCommaChars_eq_self hpost]
  exact ⟨hs, fun P => by rw [hs]⟩

/-- Witness for C8 on the concrete text `[1, ]`. -/
theorem C8_witness :
    stripTrailingCommas (String.mk (['[', '1'] ++ ',' :: ([' '] ++ ']' :: []))) =
      String.mk (['[', '1'] ++ ']' :: []) :=
  (C8_relaxed_json_trailing_comma ['[', '1'] [' '] [] ']'
    (by decide) (by decide) (Or.inr rfl) (by decide)).1

/-- C10: `normalizeNpcChatRecord` accepts the partner identifier under
`npc_key` when `key` is absent (the record's key becomes that value, trimmed),
and a record with a non-empty key survives even when every message is invalid:
the messages are dropped individually, leaving an empty list. -/
theorem C10_npc_record_normalization (now : Int) (rec : RawNpcChatRecord) (k : String)
    (hkey : rec.key = none) (hnpc : rec.npc_key = some k) (hk : ¬ jsTrim k = "") :
    (∃ out, normalizeNpcChatRecord now (some rec) = some out ∧ out.key = jsTrim k) ∧
    ((∀ m ∈ rec.messages.getD [], m.sender_handle.getD "" = "" ∨ m.content.getD "" = "") →
      ∃ out, normalizeNpcChatRecord now (some rec) = some out ∧ out.messages = []) := by
  have heq : normalizeNpcChatRecord now (some rec) =
      some { key := jsTrim k,
             updated_at := rec.updated_at.getD now,
             messages := (rec.messages.getD []).filterMap (fun item =>
               if item.sender_handle.getD "" = "" || item.content.getD "" = "" then none
               else some { sender_handle := item.sender_handle.getD "",
                           content := item.content.getD "",
                           is_read := item.is_read, timestamp := item.timestamp }) } := by
    simp only [normalizeNpcChatRecord, hkey, hnpc, Option.getD_none, Option.getD_some]
    rw [if_neg hk]
  constructor
  · exact ⟨_, heq, rfl⟩
  · intro hall
    refine ⟨_, heq, ?_⟩
    simp only
    rw [List.filterMap_eq_nil_iff]
    intro m hm
    rcases hall m hm with h1 | h1
    · simp [h1]
    · simp [h1]

/-- Concrete import record for the C10 witness: the key arrives as `npc_key`
and the only message has an empty sender. -/
def rawC10 : RawNpcChatRecord :=
  { key := none, npc_key := some " @bob ", updated_at := none,
    messages := some [{ sender_handle := some "", content := some "x",
                        is_read := none, timestamp := none }] }

/-- Witness for C10 at the concrete record. -/
theorem C10_witness :
    (∃ out, normalizeNpcChatRecord 5 (some rawC10) = some out ∧ out.key = jsTrim " @bob ") ∧
    (∃ out, normalizeNpcChatRecord 5 (some rawC10) = some out ∧ out.messages = []) := by
  have h := C10_npc_record_normalization 5 rawC10 " @bob " rfl rfl (by decide)
  exact ⟨h.1, h.2 (by decide)⟩

/-- Structured backend whose whole-document write raises, for C1. -/
def mvuC1 : MvuBackend :=
  { getMvuData := Except.ok (Val.vobj []), replaceMvuData := Except.error () }

/-- Healthy generic backend, for C1. -/
def genC1 : GenericBackend :=
  { getVariables := Except.ok (Val.vobj []), replaceVariables := Except.ok () }

/-- C1 counterexample: the structured backend is present and its
replace-whole-document call raises, yet the very same `updateStatData` call
goes on to write through the generic backend (and runs `refresh`), so the
claim that the Writer does not fall back within the call is false. -/
theorem C1_counterexample :
    mvuC1.replaceMvuData = Except.error () ∧
    (updateStatData (fun s => s) { mvu := some mvuC1, generic := some genC1 }).mvu =
      WriteAttempt.failed (Val.vobj [("stat_data", Val.vobj [])]) ∧
    (updateStatData (fun s => s) { mvu := some mvuC1, generic := some genC1 }).generic =
      WriteAttempt.succeeded (Val.vobj [("stat_data", Val.vobj [])]) ∧
    (updateStatData (fun s => s) { mvu := some mvuC1, generic := some genC1 }).refreshed = true :=
  ⟨rfl, rfl, rfl, rfl⟩

/-- C1 amended: when the structured backend is present but its read or its
replace-whole-document write raises, the failure is logged and the Writer
falls through to the generic backend within the same call — the generic-side
outcome and the refresh flag are exactly those of a standalone generic-block
attempt. -/
theorem C1_writer_falls_back (apply : Val → Val) (env : WriterEnv) (m : MvuBackend)
    (hm : env.mvu = some m)
    (hfail : m.getMvuData = Except.error () ∨ m.replaceMvuData = Except.error ()) :
    (updateStatData apply env).generic = (genericBlock apply env.generic).generic ∧
    (updateStatData apply env).refreshed = (genericBlock apply env.generic).refreshed := by
  cases hget : m.getMvuData with
  | error e =>
    simp only [updateStatData, hm, hget]
    constructor
    · first
      | rfl
      | trivial
    · first
      | rfl
      | trivial
  | ok vars =>
    have hrep : m.replaceMvuData = Except.error () := by
      rcases hfail with h | h
      · rw [hget] at h
        cases h
      · exact h
    simp only [updateStatData, hm, hget, hrep]
    constructor
    · first
      | rfl
      | trivial
    · first
      | rfl
      | trivial

/-- Witness for C1 at the concrete failing structured backend. -/
theorem C1_witness :
    (updateStatData (fun s => s) { mvu := some mvuC1, generic := some genC1 }).generic =
      (genericBlock (fun s => s) (some genC1)).generic ∧
    (updateStatData (fun s => s) { mvu := some mvuC1, generic := some genC1 }).refreshed =
      (genericBlock (fun s => s) (some genC1)).refreshed :=
  C1_writer_falls_back (fun s => s) { mvu := some mvuC1, generic := some genC1 } mvuC1 rfl
    (Or.inr rfl)

/-- The alternate-case comment list of the C2 scenario. -/
def commentsC2 : Val :=
  Val.varr [Val.vobj [("author", Val.vstr "X"), ("text", Val.vstr "t")]]

/-- A post carrying `People_comments` and no `people_comments`. -/
def postC2 : Val := Val.vobj [("body", Val.vstr "hi"), ("People_comments", commentsC2)]

/-- The same post after normalization: both comment-field variants present. -/
def postC2norm : Val :=
  Val.vobj [("body", Val.vstr "hi"), ("People_comments", commentsC2),
            ("people_comments", commentsC2)]

/-- The feed wrapping that post. -/
def feedC2 : Val := Val.vobj [("posts", Val.varr [postC2])]

/-- C2 counterexample: after `normalizeEchoChamberFeed`, the canonical
`people_comments` does hold the entries, but `People_comments` is still
present on the normalized post (the spread copies it), so the claim that the
alternate field is absent — and that both variants are never retained — is
false. -/
theorem C2_counterexample :
    objGet postC2 "people_comments" = none ∧
    objGet postC2 "People_comments" = some commentsC2 ∧
    normalizeEchoChamberFeed feedC2 =
      Except.ok (Val.vobj [("posts", Val.varr [postC2norm])]) ∧
    objGet postC2norm "people_comments" = some commentsC2 ∧
    (objGet postC2norm "People_comments").isNone = false :=
  ⟨rfl, rfl, rfl, rfl, rfl⟩

/-- C2 amended: for a post whose `people_comments` is absent and whose
`People_comments` is truthy, normalization copies the alternate entries onto
the canonical field, and the normalized post retains both variants with the
same entries. -/
theorem C2_both_variants_retained (post cs : Val)
    (hnone : objGet post "people_comments" = none)
    (halt : objGet post "People_comments" = some cs)
    (htruthy : jsFalsy cs = false) :
    normalizePostVal post = Except.ok (objSet post "people_comments" cs) ∧
    objGet (objSet post "people_comments" cs) "people_comments" = some cs ∧
    objGet (objSet post "people_comments" cs) "People_comments" = some cs := by
  obtain ⟨fields, rfl⟩ := objGet_some_vobj halt
  refine ⟨?_, ?_, ?_⟩
  · rw [normalizePostVal_vobj, if_pos]
    · rw [halt]
      rfl
    · rw [hnone, halt]
      simp [jsFalsyU, htruthy]
  · exact objGet_objSet_self fields "people_comments" cs
  · rw [objGet_objSet_other fields "people_comments" "People_comments" cs (by decide)]
    exact halt

/-- Witness for C2 at the concrete post. -/
theorem C2_witness :
    normalizePostVal postC2 = Except.ok (objSet postC2 "people_comments" commentsC2) ∧
    objGet (objSet postC2 "people_comments" commentsC2) "people_comments" = some commentsC2 ∧
    objGet (objSet postC2 "people_comments" commentsC2) "People_comments" = some commentsC2 :=
  C2_both_variants_retained postC2 commentsC2 rfl rfl rfl

/-- A post in the degenerate state: liked by the viewer with zero likes. -/
def postC3 : FeedPost :=
  { user := { name := "A", handle := "@a", avatar_icon := none, avatar_bg := none },
    body := "b", tags := none, image_caption := none,
    stats := { comments := some 0, likes := some 0, is_liked_by_viewer := some true },
    people_comments := none }

/-- C3 counterexample: the post has non-negative likes `n = 0` and
`is_liked_by_viewer = true`; toggling twice yields likes `1`, not `n` — the
first toggle's clamp at zero loses the decrement, so the round-trip claim is
false in this state. -/
theorem C3_counterexample :
    postC3.stats.likes = some 0 ∧
    postC3.stats.is_liked_by_viewer = some true ∧
    ((toggleFeedLike (toggleFeedLike [postC3] 0) 0).map (fun p => p.stats.likes)) =
      [some 1] := by
  refine ⟨rfl, rfl, ?_⟩
  decide

/-- The per-post like toggle through the index-filtered map. -/
theorem toggleFeedLike_getElem (posts : List FeedPost) (index : Nat) :
    (toggleFeedLike posts index)[index]? = (posts[index]?).map toggleFeedLikePost := by
  rw [toggleFeedLike, mapIdxFrom_getElem?]
  simp

/-- The per-post like toggle through the index-filtered map, profile side. -/
theorem toggleUserLike_getElem (posts : List ProfilePost) (index : Nat) :
    (toggleUserLike posts index)[index]? = (posts[index]?).map toggleUserLikePost := by
  rw [toggleUserLike, mapIdxFrom_getElem?]
  simp

/-- Double-toggle arithmetic on one feed post. -/
theorem toggleFeedLikePost_double (post : FeedPost)
    (hn : 0 ≤ post.stats.likes.getD 0)
    (hc : post.stats.is_liked_by_viewer.getD false = true → 1 ≤ post.stats.likes.getD 0) :
    (toggleFeedLikePost (toggleFeedLikePost post)).stats.likes.getD 0 =
      post.stats.likes.getD 0 ∧
    (toggleFeedLikePost (toggleFeedLikePost post)).stats.is_liked_by_viewer.getD false =
      post.stats.is_liked_by_viewer.getD false := by
  cases hb : post.stats.is_liked_by_viewer.getD false with
  | false =>
    have e1 : max 0 (post.stats.likes.getD 0 + 1) = post.stats.likes.getD 0 + 1 :=
      max_eq_right (by omega)
    have e2 : max 0 (post.stats.likes.getD 0 + 1 - 1) = post.stats.likes.getD 0 := by
      rw [show post.stats.likes.getD 0 + 1 - 1 = post.stats.likes.getD 0 from by omega]
      exact max_eq_right hn
    simp [toggleFeedLikePost, hb, e1, e2]
    exact hn
  | true =>
    have h1 := hc hb
    have e1 : max 0 (post.stats.likes.getD 0 - 1) = post.stats.likes.getD 0 - 1 :=
      max_eq_right (by omega)
    have e2 : max 0 (post.stats.likes.getD 0 - 1 + 1) = post.stats.likes.getD 0 := by
      rw [show post.stats.likes.getD 0 - 1 + 1 = post.stats.likes.getD 0 from by omega]
      exact max_eq_right hn
    simp [toggleFeedLikePost, hb, e1, e2]
    exact hn

/-- Double-toggle arithmetic on one profile post. -/
theorem toggleUserLikePost_double (post : ProfilePost)
    (hn : 0 ≤ post.stats.likes.getD 0)
    (hc : post.stats.is_liked_by_viewer.getD false = true → 1 ≤ post.stats.likes.getD 0) :
    (toggleUserLikePost (toggleUserLikePost post)).stats.likes.getD 0 =
      post.stats.likes.getD 0 ∧
    (toggleUserLikePost (toggleUserLikePost post)).stats.is_liked_by_viewer.getD false =
      post.stats.is_liked_by_viewer.getD false := by
  cases hb : post.stats.is_liked_by_viewer.getD false with
  | false =>
    have e1 : max 0 (post.stats.likes.getD 0 + 1) = post.stats.likes.getD 0 + 1 :=
      max_eq_right (by omega)
    have e2 : max 0 (post.stats.likes.getD 0 + 1 - 1) = post.stats.likes.getD 0 := by
      rw [show post.stats.likes.getD 0 + 1 - 1 = post.stats.likes.getD 0 from by omega]
      exact max_eq_right hn
    simp [toggleUserLikePost, hb, e1, e2]
    exact hn
  | true =>
    have h1 := hc hb
    have e1 : max 0 (post.stats.likes.getD 0 - 1) = post.stats.likes.getD 0 - 1 :=
      max_eq_right (by omega)
    have e2 : max 0 (post.stats.likes.getD 0 - 1 + 1) = post.stats.likes.getD 0 := by
      rw [show post.stats.likes.getD 0 - 1 + 1 = post.stats.likes.getD 0 from by omega]
      exact max_eq_right hn
    simp [toggleUserLikePost, hb, e1, e2]
    exact hn

/-- C3 amended: toggling twice restores likes and the viewer flag for every
post whose state is not the degenerate liked-with-zero-likes one (there the
clamp makes the second toggle land on 1); after any toggle, likes are never
negative. -/
theorem C3_double_toggle :
    (∀ (posts : List FeedPost) (index : Nat) (post : FeedPost),
      posts[index]? = some post →
      0 ≤ post.stats.likes.getD 0 →
      (post.stats.is_liked_by_viewer.getD false = true → 1 ≤ post.stats.likes.getD 0) →
      ∃ post2, (toggleFeedLike (toggleFeedLike posts index) index)[index]? = some post2 ∧
        post2.stats.likes.getD 0 = post.stats.likes.getD 0 ∧
        post2.stats.is_liked_by_viewer.getD false =
          post.stats.is_liked_by_viewer.getD false) ∧
    (∀ (posts : List ProfilePost) (index : Nat) (post : ProfilePost),
      posts[index]? = some post →
      0 ≤ post.stats.likes.getD 0 →
      (post.stats.is_liked_by_viewer.getD false = true → 1 ≤ post.stats.likes.getD 0) →
      ∃ post2, (toggleUserLike (toggleUserLike posts index) index)[index]? = some post2 ∧
        post2.stats.likes.getD 0 = post.stats.likes.getD 0 ∧
        post2.stats.is_liked_by_viewer.getD false =
          post.stats.is_liked_by_viewer.getD false) ∧
    (∀ (posts : List FeedPost) (index : Nat) (post1 : FeedPost),
      (toggleFeedLike posts index)[index]? = some post1 →
      0 ≤ post1.stats.likes.getD 0) ∧
    (∀ (posts : List ProfilePost) (index : Nat) (post1 : ProfilePost),
      (toggleUserLike posts index)[index]? = some post1 →
      0 ≤ post1.stats.likes.getD 0) := by
  refine ⟨?_, ?_, ?_, ?_⟩
  · intro posts index post hpost hn hc
    refine ⟨toggleFeedLikePost (toggleFeedLikePost post), ?_, ?_, ?_⟩
    · rw [toggleFeedLike_getElem, toggleFeedLike_getElem, hpost]
      rfl
    · exact (toggleFeedLikePost_double post hn hc).1
    · exact (toggleFeedLikePost_double post hn hc).2
  · intro posts index post hpost hn hc
    refine ⟨toggleUserLikePost (toggleUserLikePost post), ?_, ?_, ?_⟩
    · rw [toggleUserLike_getElem, toggleUserLike_getElem, hpost]
      rfl
    · exact (toggleUserLikePost_double post hn hc).1
    · exact (toggleUserLikePost_double post hn hc).2
  · intro posts index post1 hpost
    rw [toggleFeedLike_getElem] at hpost
    cases hsrc : posts[index]? with
    | none => rw [hsrc] at hpost; cases hpost
    | some post =>
      rw [hsrc] at hpost
      cases hpost
      simp only [toggleFeedLikePost, Option.getD_some]
      exact le_max_left 0 _
  · intro posts index post1 hpost
    rw [toggleUserLike_getElem] at hpost
    cases hsrc : posts[index]? with
    | none => rw [hsrc] at hpost; cases hpost
    | some post =>
      rw [hsrc] at hpost
      cases hpost
      simp only [toggleUserLikePost, Option.getD_some]
      exact le_max_left 0 _

/-- A consistent post for the C3 witness: two likes, liked by the viewer. -/
def postC3w : FeedPost :=
  { user := { name := "A", handle := "@a", avatar_icon := none, avatar_bg := none },
    body := "b", tags := none, image_caption := none,
    stats := { comments := some 0, likes := some 2, is_liked_by_viewer := some true },
    people_comments := none }

/-- Witness for C3 at the concrete consistent post. -/
theorem C3_witness :
    ∃ post2, (toggleFeedLike (toggleFeedLike [postC3w] 0) 0)[0]? = some post2 ∧
      post2.stats.likes.getD 0 = postC3w.stats.likes.getD 0 ∧
      post2.stats.is_liked_by_viewer.getD false =
        postC3w.stats.is_liked_by_viewer.getD false :=
  C3_double_toggle.1 [postC3w] 0 postC3w rfl (by decide) (by decide)

/-- Non-negativity of the comment and like counters across a post list. -/
def feedStatsNonneg (posts : List FeedPost) : Prop :=
  ∀ post ∈ posts, 0 ≤ post.stats.comments.getD 0 ∧ 0 ≤ post.stats.likes.getD 0

/-- Counter non-negativity survives an index-filtered map whose rewrite
preserves it. -/
theorem feedStatsNonneg_mapIdxFrom {posts : List FeedPost} {f : Nat → FeedPost → FeedPost}
    (hf : ∀ i x, x ∈ posts →
      0 ≤ (f i x).stats.comments.getD 0 ∧ 0 ≤ (f i x).stats.likes.getD 0) :
    feedStatsNonneg (mapIdxFrom f 0 posts) := by
  intro y hy
  obtain ⟨i, x, hx, rfl⟩ := mapIdxFrom_mem hy
  exact hf i x hx

/-- C9: after any of the four mutating feed operations — like toggle, comment
add, comment delete, reply delete — the comment and like counters are never
negative: every decrement clamps at zero and the increment preserves
non-negativity. -/
theorem C9_stats_never_negative (posts : List FeedPost) (h : feedStatsNonneg posts) :
    (∀ index, feedStatsNonneg (toggleFeedLike posts index)) ∧
    (∀ viewer index content target,
      feedStatsNonneg (handleFeedReplySend viewer posts index content target)) ∧
    (∀ postIndex commentIndex,
      feedStatsNonneg (handleDeleteFeedComment posts postIndex commentIndex)) ∧
    (∀ postIndex commentIndex replyIndex,
      feedStatsNonneg (handleDeleteFeedReply posts postIndex commentIndex replyIndex)) := by
  refine ⟨?_, ?_, ?_, ?_⟩
  · intro index
    rw [toggleFeedLike]
    apply feedStatsNonneg_mapIdxFrom
    intro i x hx
    by_cases hi : i = index
    · rw [if_pos hi]
      refine ⟨?_, ?_⟩
      · simpa [toggleFeedLikePost] using (h x hx).1
      · simp only [toggleFeedLikePost, Option.getD_some]
        exact le_max_left 0 _
    · rw [if_neg hi]
      exact h x hx
  · intro viewer index content target
    simp only [handleFeedReplySend]
    repeat' split
    all_goals first
      | exact h
      | (apply feedStatsNonneg_mapIdxFrom
         intro i x hx
         by_cases hi : i = index
         · rw [if_pos hi]
           refine ⟨?_, ?_⟩
           · simp only [Option.getD_some]
             have := (h x hx).1
             omega
           · simpa using (h x hx).2
         · rw [if_neg hi]
           exact h x hx)
  · intro postIndex commentIndex
    rw [handleDeleteFeedComment]
    split
    · exact h
    · split
      · exact h
      · apply feedStatsNonneg_mapIdxFrom
        intro i x hx
        by_cases hi : i = postIndex
        · rw [if_pos hi]
          refine ⟨?_, ?_⟩
          · simp only [Option.getD_some]
            exact le_max_left 0 _
          · simpa using (h x hx).2
        · rw [if_neg hi]
          exact h x hx
  · intro postIndex commentIndex replyIndex
    rw [handleDeleteFeedReply]
    split
    · exact h
    · split
      · exact h
      · split
        · exact h
        · apply feedStatsNonneg_mapIdxFrom
          intro i x hx
          by_cases hi : i = postIndex
          · rw [if_pos hi]
            refine ⟨?_, ?_⟩
            · simp only [Option.getD_some]
              exact le_max_left 0 _
            · simpa using (h x hx).2
          · rw [if_neg hi]
            exact h x hx

/-- Witness for C9 at a concrete post list. -/
theorem C9_witness :
    feedStatsNonneg (toggleFeedLike [postC3w] 0) ∧
    feedStatsNonneg (handleDeleteFeedComment [postC3w] 0 0) := by
  have hbase : feedStatsNonneg [postC3w] := by
    intro post hp
    rw [List.mem_singleton] at hp
    subst hp
    exact ⟨by decide, by decide⟩
  exact ⟨(C9_stats_never_negative [postC3w] hbase).1 0,
         (C9_stats_never_negative [postC3w] hbase).2.2.1 0 0⟩

/-- Unfolding of `normalizeEchoChamberFeed` on an object. -/
theorem normalizeEchoChamberFeed_vobj (fields : List (String × Val)) :
    normalizeEchoChamberFeed (Val.vobj fields) =
      match objGet (Val.vobj fields) "posts" with
      | none => Except.ok (Val.vobj fields)
      | some postsVal =>
        if jsFalsy postsVal then Except.ok (Val.vobj fields)
        else
          match postsVal with
          | Val.varr posts =>
            (posts.mapM normalizePostVal).bind (fun normalized =>
              Except.ok (objSet (Val.vobj fields) "posts" (Val.varr normalized)))
          | _ => Except.error () := rfl

/-- Unfolding of `normalizeEchoChamberFeed` on an object with a `posts` key. -/
theorem normalizeEchoChamberFeed_vobj_some (fields : List (String × Val)) (pv : Val)
    (hposts : objGet (Val.vobj fields) "posts" = some pv) :
    normalizeEchoChamberFeed (Val.vobj fields) =
      if jsFalsy pv then Except.ok (Val.vobj fields)
      else
        match pv with
        | Val.varr posts =>
          (posts.mapM normalizePostVal).bind (fun normalized =>
            Except.ok (objSet (Val.vobj fields) "posts" (Val.varr normalized)))
        | _ => Except.error () := by
  rw [normalizeEchoChamberFeed_vobj, hposts]

/-- Unfolding of `normalizeEchoChamberFeed` on an object without a `posts`
key. -/
theorem normalizeEchoChamberFeed_vobj_none (fields : List (String × Val))
    (hposts : objGet (Val.vobj fields) "posts" = none) :
    normalizeEchoChamberFeed (Val.vobj fields) = Except.ok (Val.vobj fields) := by
  rw [normalizeEchoChamberFeed_vobj, hposts]

/-- C4: `normalizeEchoChamberFeed` is idempotent — whenever it produces a
feed, running it again returns that feed unchanged — and on every post it
changes only the canonical `people_comments` field, leaving every other field
(including the alternate-case one) untouched. -/
theorem C4_normalize_idempotent :
    (∀ feed w, normalizeEchoChamberFeed feed = Except.ok w →
      normalizeEchoChamberFeed w = Except.ok w) ∧
    (∀ post p2 k, normalizePostVal post = Except.ok p2 → ¬ k = "people_comments" →
      objGet p2 k = objGet post k) := by
  constructor
  · intro feed w h
    cases feed with
    | vnull => simp [normalizeEchoChamberFeed] at h
    | vbool b =>
      have he : normalizeEchoChamberFeed (Val.vbool b) = Except.ok (Val.vbool b) := rfl
      rw [he] at h
      cases h
      exact he
    | vnum n =>
      have he : normalizeEchoChamberFeed (Val.vnum n) = Except.ok (Val.vnum n) := rfl
      rw [he] at h
      cases h
      exact he
    | vstr s =>
      have he : normalizeEchoChamberFeed (Val.vstr s) = Except.ok (Val.vstr s) := rfl
      rw [he] at h
      cases h
      exact he
    | varr items =>
      have he : normalizeEchoChamberFeed (Val.varr items) = Except.ok (Val.varr items) := rfl
      rw [he] at h
      cases h
      exact he
    | vobj fields =>
      cases hposts : objGet (Val.vobj fields) "posts" with
      | none =>
        rw [normalizeEchoChamberFeed_vobj_none fields hposts] at h
        cases h
        exact normalizeEchoChamberFeed_vobj_none fields hposts
      | some pv =>
        rw [normalizeEchoChamberFeed_vobj_some fields pv hposts] at h
        by_cases hf : jsFalsy pv = true
        · rw [if_pos hf] at h
          cases h
          rw [normalizeEchoChamberFeed_vobj_some fields pv hposts, if_pos hf]
        · rw [if_neg hf] at h
          cases pv with
          | vnull => exact absurd rfl hf
          | vbool b => simp at h
          | vnum n => simp at h
          | vstr s => simp at h
          | vobj f2 => simp at h
          | varr posts =>
            have h2 : (posts.mapM normalizePostVal).bind (fun normalized =>
                Except.ok (objSet (Val.vobj fields) "posts" (Val.varr normalized))) =
                Except.ok w := h
            cases hmap : posts.mapM normalizePostVal with
            | error e =>
              rw [hmap] at h2
              simp [Except.bind] at h2
            | ok nl =>
              rw [hmap] at h2
              simp only [Except.bind] at h2
              cases h2
              have hw : objSet (Val.vobj fields) "posts" (Val.varr nl) =
                  Val.vobj (setField "posts" (Val.varr nl) fields) := rfl
              rw [hw, normalizeEchoChamberFeed_vobj]
              have hget : objGet (Val.vobj (setField "posts" (Val.varr nl) fields)) "posts" =
                  some (Val.varr nl) := objGet_objSet_self fields "posts" (Val.varr nl)
              rw [hget]
              have hfa : jsFalsy (Val.varr nl) = false := rfl
              simp only [hfa, Bool.false_eq_true, if_false]
              rw [mapM_ok_of_idem normalizePostVal_idem posts nl hmap]
              simp only [Except.bind]
              have hset : objSet (Val.vobj (setField "posts" (Val.varr nl) fields)) "posts"
                  (Val.varr nl) = Val.vobj (setField "posts" (Val.varr nl) fields) := by
                simp [objSet, setField_setField_self fields "posts" (Val.varr nl)]
              rw [hset]
  · intro post p2 k hp hk
    cases post with
    | vnull => simp [normalizePostVal] at hp
    | vobj fields =>
      rw [normalizePostVal_vobj] at hp
      by_cases hcond : (jsFalsyU (objGet (Val.vobj fields) "people_comments") &&
          !jsFalsyU (objGet (Val.vobj fields) "People_comments")) = true
      · rw [if_pos hcond] at hp
        cases hp
        exact objGet_objSet_other fields "people_comments" k _ hk
      · rw [if_neg hcond] at hp
        cases hp
        rfl
    | vbool b =>
      have he : normalizePostVal (Val.vbool b) = Except.ok (Val.vbool b) := rfl
      rw [he] at hp
      cases hp
      rfl
    | vnum n =>
      have he : normalizePostVal (Val.vnum n) = Except.ok (Val.vnum n) := rfl
      rw [he] at hp
      cases hp
      rfl
    | vstr s =>
      have he : normalizePostVal (Val.vstr s) = Except.ok (Val.vstr s) := rfl
      rw [he] at hp
      cases hp
      rfl
    | varr items =>
      have he : normalizePostVal (Val.varr items) = Except.ok (Val.varr items) := rfl
      rw [he] at hp
      cases hp
      rfl

/-- Witness for C4 at the concrete feed of the normalization scenario. -/
theorem C4_witness :
    normalizeEchoChamberFeed (Val.vobj [("posts", Val.varr [postC2norm])]) =
      Except.ok (Val.vobj [("posts", Val.varr [postC2norm])]) ∧
    objGet (objSet postC2 "people_comments" commentsC2) "body" = objGet postC2 "body" := by
  constructor
  · exact C4_normalize_idempotent.1 feedC2 (Val.vobj [("posts", Val.varr [postC2norm])]) rfl
  · exact C4_normalize_idempotent.2 postC2 (objSet postC2 "people_comments" commentsC2) "body"
      rfl (by decide)

/-- C5: the Reader treats a raising backend or scope access as a miss (a
raising structured read behaves exactly like an absent structured backend; a
raising scope is skipped), yields null when no scope produces a non-null
coercion, and on a null result `refreshData` leaves the in-memory model
exactly as it was. -/
theorem C5_reader_error_handling :
    (∀ (P : Parsers) (fuel : Nat) (env : ReaderEnv),
      readEchoChamberVariables P fuel { env with mvu := some (Except.error ()) } =
        readEchoChamberVariables P fuel { env with mvu := none }) ∧
    (∀ (P : Parsers) (fuel : Nat) (gv : Scope → Except Unit Val) (s : Scope)
        (rest : List Scope), gv s = Except.error () →
      genericScan P fuel gv (s :: rest) = genericScan P fuel gv rest) ∧
    (∀ (P : Parsers) (fuel : Nat) (env : ReaderEnv) (gv : Scope → Except Unit Val),
      env.getVars = some gv →
      (∀ doc, env.mvu = some (Except.ok doc) → mvuProbe P fuel doc = none) →
      (∀ s vars, gv s = Except.ok vars → probeScope P fuel vars = none) →
      readEchoChamberVariables P fuel env = none) ∧
    (∀ (P : Parsers) (fuel : Nat) (subst : Option (String → Except Unit String))
        (env : ReaderEnv) (current : Val),
      readEchoChamberVariables P fuel env = none →
      refreshData P fuel subst env current = Except.ok current) := by
  refine ⟨?_, ?_, ?_, ?_⟩
  · intro P fuel env
    obtain ⟨mv, hmsg, gvo⟩ := env
    cases hmsg with
    | false => rfl
    | true => rfl
  · intro P fuel gv s rest h
    exact genericScan_error_skip P fuel gv s rest h
  · intro P fuel env gv hgv hmvu hscan
    have hfrom : (match env.mvu, env.hasMessageId with
        | some (Except.ok doc), true => mvuProbe P fuel doc
        | _, _ => none) = (none : Option Val) := by
      cases hm : env.mvu with
      | none =>
        cases env.hasMessageId with
        | false => rfl
        | true => rfl
      | some r =>
        cases r with
        | error e =>
          cases env.hasMessageId with
          | false => rfl
          | true => rfl
        | ok doc =>
          cases hmsg : env.hasMessageId with
          | false => rfl
          | true => exact hmvu doc hm
    simp only [readEchoChamberVariables, hfrom, hgv]
    exact genericScan_none P fuel gv (readerScopes env.hasMessageId) hscan
  · intro P fuel subst env current hnone
    simp only [refreshData, hnone]

/-- Reader environment whose structured read and every generic scope raise. -/
def readerEnvC5 : ReaderEnv :=
  { mvu := some (Except.error ()), hasMessageId := true,
    getVars := some (fun _ => Except.error ()) }

/-- Witness for C5 at the concrete all-raising environment. -/
theorem C5_witness :
    (readEchoChamberVariables parsersAllFail 3 readerEnvC5 =
      readEchoChamberVariables parsersAllFail 3 { readerEnvC5 with mvu := none }) ∧
    (genericScan parsersAllFail 3 (fun _ => Except.error ()) [Scope.chat] =
      genericScan parsersAllFail 3 (fun _ => Except.error ()) []) ∧
    readEchoChamberVariables parsersAllFail 3 readerEnvC5 = none ∧
    refreshData parsersAllFail 3 none readerEnvC5 (Val.vstr "keep") =
      Except.ok (Val.vstr "keep") := by
  have h := C5_reader_error_handling
  have hnone : readEchoChamberVariables parsersAllFail 3 readerEnvC5 = none :=
    h.2.2.1 parsersAllFail 3 readerEnvC5 (fun _ => Except.error ()) rfl
      (fun doc hdoc => Except.noConfusion (Option.some.inj hdoc))
      (fun s vars hv => Except.noConfusion hv)
  refine ⟨?_, ?_, hnone, ?_⟩
  · exact h.1 parsersAllFail 3 { readerEnvC5 with mvu := none }
  · exact h.2.1 parsersAllFail 3 (fun _ => Except.error ()) Scope.chat [] rfl
  · exact h.2.2.2 parsersAllFail 3 none readerEnvC5 (Val.vstr "keep") hnone

end EchoChamber
